import Mathlib

/-
Verification of the synthetic-data MCP server core against its
natural-language specification.

The storage loader (awslabs/syntheticdata_mcp_server/storage/loader.py) is
embedded directly from its source.  The execution sandbox, validation
service, integrity analyzer and S3 target are present in the repository only
through their tests; their definitions below are modelled from the spec, as
marked in each doc comment.
-/

namespace MCP

/-- Scalar cell values carried by table records. -/
inductive Value where
  | intV (n : Int)
  | strV (s : String)
deriving DecidableEq

/-- A record is an association list from field name to scalar value. -/
abbrev Rec : Type := List (String × Value)

/-- Association-list lookup, mirroring Python dict indexing. -/
def dictLookup {α : Type} : List (String × α) → String → Option α
  | [], _ => none
  | (k, v) :: rest, key => if k = key then some v else dictLookup rest key

/-- Association-list insert-or-overwrite, mirroring Python dict assignment:
an existing key keeps its position and gets the new value. -/
def dictInsert {α : Type} : List (String × α) → String → α → List (String × α)
  | [], key, v => [(key, v)]
  | (k, w) :: rest, key, v =>
    if k = key then (key, v) :: rest else (k, w) :: dictInsert rest key v

/-- Column list of a table: the field names of its first record
(the DataFrame column order). -/
def tableColumns (records : List Rec) : List String :=
  (records.headD []).map Prod.fst

/-- Field access with a default, used where the modelled operations read a
column that is present on every record of well-formed input. -/
def getFieldD (r : Rec) (c : String) : Value :=
  (dictLookup r c).getD (Value.strV "")

/-- Characters of the textual rendering of a scalar value. -/
def valueChars : Value → List Char
  | Value.intV n => (toString n).data
  | Value.strV s => s.data

/-- Join character lists with a separator character. -/
def joinSep (sep : Char) : List (List Char) → List Char
  | [] => []
  | [x] => x
  | x :: y :: rest => x ++ sep :: joinSep sep (y :: rest)

/-- Split a character list at a separator character; inverse of joinSep on
separator-free chunks. -/
def splitSep (sep : Char) : List Char → List (List Char)
  | [] => [[]]
  | c :: rest =>
    if c = sep then [] :: splitSep sep rest
    else
      match splitSep sep rest with
      | [] => [[c]]
      | g :: gs => (c :: g) :: gs

/-- Cells of one CSV row, in column order. -/
def rowCells (cols : List String) (r : Rec) : List (List Char) :=
  cols.map (fun c => valueChars (getFieldD r c))

/-- Modelled from the spec: the delimited (CSV) serialization of a table
that the Sandbox, Validation Service and S3 Target write — a header row of
column names followed by one comma-joined line per record
(pandas to_csv is not part of src/). -/
def csvEncode (cols : List String) (rows : List Rec) : List Char :=
  joinSep '\n'
    (joinSep ',' (cols.map String.data) ::
      rows.map (fun r => joinSep ',' (rowCells cols r)))

/-- Lines of a serialized delimited file. -/
def csvLines (content : List Char) : List (List Char) :=
  splitSep '\n' content

/-- Modelled from the spec: the column names re-materialized from a
delimited file — the comma-split header line (pandas read_csv is not part
of src/). -/
def csvCols (content : List Char) : List (List Char) :=
  splitSep ',' ((csvLines content).headD [])

/-- Modelled from the spec: the row count re-materialized from a delimited
file — every line after the header is one record. -/
def csvRowCount (content : List Char) : Nat :=
  (csvLines content).length - 1

/-- Descriptor of one object uploaded by a storage target. -/
structure UploadedFile where
  bucket : String
  key : List Char
  content : List Char
  storageClass : String
  encryption : String
  size : Nat
deriving DecidableEq

/-- Per-target result dictionary recorded by the loader: a success flag and
either an error message or the uploaded-file descriptors. -/
structure TargetResult where
  success : Bool
  error : Option String
  uploaded_files : Option (List UploadedFile)
deriving DecidableEq

/-- A storage target: validate and load, each able to raise (Except.error
is a raised Python exception carrying its message). -/
structure Target (δ κ : Type) where
  validate : δ → κ → Except String Bool
  load : δ → κ → Except String TargetResult

/-- One target spec handed to the loader.  The fields model the presence or
absence of the type and config keys of the Python dict: reading an
absent key raises KeyError. -/
structure TargetSpec (κ : Type) where
  typeKey : Option String
  configKey : Option κ

/-- The envelope returned by UnifiedDataLoader.load_data. -/
structure LoadEnvelope where
  success : Bool
  results : List (String × TargetResult)
deriving DecidableEq

/-- One iteration of the loop body of UnifiedDataLoader.load_data
(loader.py lines 46-74): read the spec type (KeyError if absent), record
unsupported types, read the config (KeyError if absent), run validate
(uncaught if it raises), record invalid configuration, then run load with
its errors caught and recorded. -/
def runSpec {δ κ : Type} (registry : String → Option (Target δ κ)) (data : δ)
    (spec : TargetSpec κ) : Except String (String × TargetResult) :=
  match spec.typeKey with
  | none => Except.error "KeyError: type"
  | some t =>
    match registry t with
    | none =>
      Except.ok (t, ⟨false, some ("Unsupported target type: " ++ t), none⟩)
    | some tgt =>
      match spec.configKey with
      | none => Except.error "KeyError: config"
      | some c =>
        match tgt.validate data c with
        | Except.error e => Except.error e
        | Except.ok v =>
          if v then
            match tgt.load data c with
            | Except.ok r => Except.ok (t, r)
            | Except.error e => Except.ok (t, ⟨false, some e, none⟩)
          else
            Except.ok (t, ⟨false, some "Invalid configuration or data", none⟩)

/-- The loop of UnifiedDataLoader.load_data over the spec list,
accumulating the per-type results dictionary. -/
def loadLoop {δ κ : Type} (registry : String → Option (Target δ κ)) (data : δ) :
    List (TargetSpec κ) → List (String × TargetResult) →
    Except String (List (String × TargetResult))
  | [], acc => Except.ok acc
  | s :: rest, acc =>
    match runSpec registry data s with
    | Except.error e => Except.error e
    | Except.ok p => loadLoop registry data rest (dictInsert acc p.1 p.2)

/-- Embedding of UnifiedDataLoader.load_data (loader.py lines 44-79): run
every spec against the registry of targets, then return overall success as
the conjunction of all recorded per-target success flags. -/
def load_data {δ κ : Type} (registry : String → Option (Target δ κ)) (data : δ)
    (specs : List (TargetSpec κ)) : Except String LoadEnvelope :=
  match loadLoop registry data specs [] with
  | Except.error e => Except.error e
  | Except.ok res => Except.ok ⟨res.all (fun p => p.2.success), res⟩

/-- A spec whose processing cannot raise: its type key is present, and if
the type is registered then its config key is present and the validate
of the target returns rather than raising. -/
def specSafe {δ κ : Type} (registry : String → Option (Target δ κ)) (data : δ)
    (s : TargetSpec κ) : Prop :=
  ∃ t, s.typeKey = some t ∧
    ∀ tgt, registry t = some tgt →
      ∃ c, s.configKey = some c ∧ ∃ b, tgt.validate data c = Except.ok b

/-- Partitioning options of an S3 target config. -/
structure PartitionConfig where
  enabled : Bool
  columns : List String
  dropColumns : Bool

/-- Modelled from the spec: the S3 target configuration schema — bucket,
key path pfx, format, optional partitioning, storage class and
encryption (storage/s3.py is not part of src/). -/
structure S3Config where
  bucket : String
  pfx : String
  format : String
  partitioning : Option PartitionConfig
  storageClass : String
  encryption : String

/-- Modelled from the spec: S3 target validate — non-empty bucket,
non-empty path pfx, and a supported format; a boolean only. -/
def s3Validate (cfg : S3Config) : Bool :=
  decide (cfg.bucket ≠ "") && decide (cfg.pfx ≠ "") &&
    (decide (cfg.format = "csv") || decide (cfg.format = "json") ||
      decide (cfg.format = "parquet"))

/-- The partition-value combination of one record: each partition column
paired with the record value it holds there. -/
def comboOf (pcols : List String) (r : Rec) : List (String × Value) :=
  pcols.map (fun c => (c, getFieldD r c))

/-- Remove the partition columns from a record. -/
def dropColsRec (pcols : List String) (r : Rec) : Rec :=
  r.filter (fun p => decide (p.1 ∉ pcols))

/-- Modelled from the spec: splitting a table into sub-tables keyed by the
distinct value-combinations of the partition columns, removing those
columns from the content when dropColumns is set. -/
def partitionUnits (pcfg : PartitionConfig) (cols : List String)
    (records : List Rec) : List (List (String × Value) × List String × List Rec) :=
  ((records.map (comboOf pcfg.columns)).dedup).map (fun combo =>
    let grp := records.filter (fun r => decide (comboOf pcfg.columns r = combo))
    if pcfg.dropColumns then
      (combo, cols.filter (fun c => decide (c ∉ pcfg.columns)),
        grp.map (dropColsRec pcfg.columns))
    else
      (combo, cols, grp))

/-- The column=value/ path segment encoding one partition value. -/
def seg (p : String × Value) : List Char :=
  p.1.data ++ '=' :: (valueChars p.2 ++ ['/'])

/-- The partition part of an object key: one column=value/ segment per
partition column. -/
def partitionPathChars (combo : List (String × Value)) : List Char :=
  (combo.map seg).flatten

/-- Modelled from the spec: the object key of one uploaded unit —
pfx, table name, the partition segments, then table-name.extension. -/
def objectKeyChars (pfx name : String) (combo : List (String × Value))
    (ext : String) : List Char :=
  pfx.data ++ name.data ++ '/' ::
    (partitionPathChars combo ++ name.data ++ '.' :: ext.data)

/-- Modelled from the spec: array-of-records JSON-style encoding of a
table. -/
def jsonEncode (cols : List String) (rows : List Rec) : List Char :=
  '[' :: joinSep ','
      (rows.map (fun r =>
        '\x7b' :: (joinSep ','
          (cols.map (fun c =>
            c.data ++ ':' :: valueChars (getFieldD r c))) ++ ['\x7d'])))
    ++ [']']

/-- Modelled from the spec: columnar binary encoding of a table,
abstracted as a tagged container around the delimited form. -/
def parquetEncode (cols : List String) (rows : List Rec) : List Char :=
  "PAR1".data ++ csvEncode cols rows

/-- Modelled from the spec: conversion of a table to the requested
encoding; an unsupported format raises a descriptive error. -/
def convertFormat (cols : List String) (rows : List Rec) (format : String) :
    Except String (List Char) :=
  if format = "csv" then Except.ok (csvEncode cols rows)
  else if format = "json" then Except.ok (jsonEncode cols rows)
  else if format = "parquet" then Except.ok (parquetEncode cols rows)
  else Except.error ("Unsupported format: " ++ format)

/-- Build the uploaded-object descriptor for one converted unit. -/
def mkFile (cfg : S3Config) (key content : List Char) : UploadedFile :=
  ⟨cfg.bucket, key, content, cfg.storageClass, cfg.encryption, content.length⟩

/-- Traverse a list with a fallible function, stopping at the first raised
error. -/
def exceptMap {α β : Type} (f : α → Except String β) :
    List α → Except String (List β)
  | [] => Except.ok []
  | a :: rest =>
    match f a with
    | Except.error e => Except.error e
    | Except.ok b =>
      match exceptMap f rest with
      | Except.error e => Except.error e
      | Except.ok bs => Except.ok (b :: bs)

/-- Modelled from the spec: S3 target load of one table — convert, with
partitioning when enabled, and upload one object per unit (the upload
itself is modelled as succeeding; an upload failure would raise and is the
concern of the loader, not modelled here). -/
def s3LoadTable (cfg : S3Config) (name : String) (records : List Rec) :
    Except String (List UploadedFile) :=
  let cols := tableColumns records
  match cfg.partitioning with
  | some pcfg =>
    if pcfg.enabled then
      exceptMap (fun u =>
        match convertFormat u.2.1 u.2.2 cfg.format with
        | Except.error e => Except.error e
        | Except.ok content =>
          Except.ok
            (mkFile cfg (objectKeyChars cfg.pfx name u.1 cfg.format) content))
        (partitionUnits pcfg cols records)
    else
      match convertFormat cols records cfg.format with
      | Except.error e => Except.error e
      | Except.ok content =>
        Except.ok [mkFile cfg (objectKeyChars cfg.pfx name [] cfg.format) content]
  | none =>
    match convertFormat cols records cfg.format with
    | Except.error e => Except.error e
    | Except.ok content =>
      Except.ok [mkFile cfg (objectKeyChars cfg.pfx name [] cfg.format) content]

/-- Modelled from the spec: S3 target load over a table mapping, returning
success with the uploaded-file descriptors of every table. -/
def s3Load (data : List (String × List Rec)) (cfg : S3Config) :
    Except String TargetResult :=
  match exceptMap (fun p => s3LoadTable cfg p.1 p.2) data with
  | Except.error e => Except.error e
  | Except.ok fs => Except.ok ⟨true, none, some fs.flatten⟩

/-- Validation result of one table. -/
structure ValidationResult where
  table_name : String
  is_valid : Bool
  errors : List String
deriving DecidableEq

/-- Error message of the empty-table check. -/
def emptyMsg (name : String) : String :=
  "Table " ++ name ++ " cannot be empty"

/-- Error message of the uniform-schema check. -/
def keysMsg (name : String) : String :=
  "All records in table " ++ name ++ " must have the same keys"

/-- Field names of one record. -/
def keysOf (r : Rec) : List String :=
  r.map Prod.fst

/-- Set equality of two field-name lists. -/
def keySetEq (a b : List String) : Bool :=
  a.all (fun k => decide (k ∈ b)) && b.all (fun k => decide (k ∈ a))

/-- Whether every record has the same field-name set as the first. -/
def uniformKeys : List Rec → Bool
  | [] => true
  | r :: rest => rest.all (fun x => keySetEq (keysOf x) (keysOf r))

/-- The identifier values carried by the records. -/
def idValues (records : List Rec) : List Value :=
  records.filterMap (fun r => dictLookup r "id")

/-- The identifier values shared by more than one record. -/
def dupIds (records : List Rec) : List Value :=
  ((idValues records).filter
    (fun v => decide (1 < (idValues records).count v))).dedup

/-- Render a value list for an error message. -/
def renderValues (vs : List Value) : String :=
  String.intercalate ", " (vs.map (fun v => String.mk (valueChars v)))

/-- Error message of the duplicate-identifier check. -/
def dupMsg (name : String) (vs : List Value) : String :=
  "Duplicate IDs found in table " ++ name ++ ": " ++ renderValues vs

/-- Modelled from the spec: the validation service on one table
(server.py validate_table_data is not part of src/) — an empty table
short-circuits with a single cannot-be-empty error; otherwise the
uniform-schema check and the duplicate-identifier check both run and
accumulate their errors. -/
def validate_table_data (name : String) (records : List Rec) :
    ValidationResult :=
  if records.isEmpty then
    ⟨name, false, [emptyMsg name]⟩
  else
    let e1 := if uniformKeys records then [] else [keysMsg name]
    let e2 := if (dupIds records).isEmpty then []
      else [dupMsg name (dupIds records)]
    let errs := e1 ++ e2
    ⟨name, errs.isEmpty, errs⟩

/-- The envelope returned by validate_and_save_data. -/
structure SaveResult where
  success : Bool
  validation_results : List (String × ValidationResult)
  csv_paths : List (String × String)
  row_counts : List (String × Nat)
  files : List (String × List Char)
deriving DecidableEq

/-- Modelled from the spec: validate_and_save_data (server.py is not part
of src/) — validate every table, persist every table as a delimited file
regardless of its validity, report per-table paths and row counts, and
report overall success. -/
def validate_and_save_data (data : List (String × List Rec)) (dir : String) :
    SaveResult :=
  ⟨true,
    data.map (fun p => (p.1, validate_table_data p.1 p.2)),
    data.map (fun p => (p.1, dir ++ "/" ++ p.1 ++ ".csv")),
    data.map (fun p => (p.1, p.2.length)),
    data.map (fun p => (p.1, csvEncode (tableColumns p.2) p.2))⟩

/-- One statement of a generation source, abstracted to the names its
expression references in order, the name it binds, and whether the bound
value is structurally a table. -/
structure Stmt where
  target : String
  uses : List String
  makesTable : Bool
deriving DecidableEq

/-- Modelled from the spec: the explicit allow-list of table-construction
primitives bound into the restricted evaluation context; no filesystem,
process, network or dynamic-import capability is present. -/
def restrictedContext : List String :=
  ["pd"]

/-- First name a source fails to resolve against the context, with each
statement binding its target for the statements after it. -/
def resolveNames (ctx : List String) : List Stmt → Option String
  | [] => none
  | s :: rest =>
    match s.uses.find? (fun n => !(decide (n ∈ ctx))) with
    | some n => some n
    | none => resolveNames (s.target :: ctx) rest

/-- Result envelope of a sandbox run. -/
structure ExecResult where
  success : Bool
  error : Option String
  saved_files : List String
deriving DecidableEq

/-- The message of a name-resolution failure. -/
def nameErrorMsg (n : String) : String :=
  "NameError: name " ++ n ++ " is not defined"

/-- Modelled from the spec: the execution sandbox
(pandas_interpreter.execute_pandas_code is not part of src/) — evaluate
the source under the restricted context; an unresolvable name yields a
name-resolution failure; zero recognized tables yields an explicit
no-tables failure; otherwise every table binding is harvested and
persisted. -/
def execute_pandas_code (stmts : List Stmt) : ExecResult :=
  match resolveNames restrictedContext stmts with
  | some n => ⟨false, some (nameErrorMsg n), []⟩
  | none =>
    let dfs := (stmts.filter (fun s => s.makesTable)).map (fun s => s.target)
    if dfs.isEmpty then ⟨false, some "No DataFrames found in the code", []⟩
    else ⟨true, none, dfs⟩

/-- An integrity issue: a referential-integrity violation or a
functional-dependency violation. -/
inductive Issue where
  | ref (source_table target_table column : String) (violating : List Value)
  | fd (table determinant dependent : String) (detVal dep1 dep2 : Value)
deriving DecidableEq

/-- Singular form of a table name: a trailing s is dropped. -/
def singular (s : String) : String :=
  match s.data.getLast? with
  | some c => if c = 's' then String.mk s.data.dropLast else s
  | none => s

/-- The parent table referenced by a child column under the foreign-key
naming pattern: another table whose singularized name plus _id equals the
column. -/
def findParent (tables : List (String × List Rec)) (sname col : String) :
    Option (String × List Rec) :=
  tables.find? (fun p =>
    decide (p.1 ≠ sname) && decide (singular p.1 ++ "_id" = col))

/-- The primary identifier column of a table: id when present, else the
singularized table name plus _id, else absent (the check is skipped). -/
def idColumn (tname : String) (trecs : List Rec) : Option String :=
  let cols := tableColumns trecs
  if "id" ∈ cols then some "id"
  else if singular tname ++ "_id" ∈ cols then some (singular tname ++ "_id")
  else none

/-- The values present in a child column. -/
def childVals (srecs : List Rec) (col : String) : List Value :=
  srecs.filterMap (fun r => dictLookup r col)

/-- The identifier values of a parent table. -/
def parentIds (trecs : List Rec) (idc : String) : List Value :=
  trecs.filterMap (fun r => dictLookup r idc)

/-- Modelled from the spec: the referential check for one child column —
when the column matches the foreign-key pattern and the parent has an
identifier column, any child value absent from the parent identifier set
constitutes a violation and yields one issue carrying the offending
values. -/
def refIssueFor (tables : List (String × List Rec)) (sname : String)
    (srecs : List Rec) (col : String) : Option Issue :=
  match findParent tables sname col with
  | none => none
  | some (tname, trecs) =>
    match idColumn tname trecs with
    | none => none
    | some idc =>
      if ((childVals srecs col).filter
          (fun v => decide (v ∉ parentIds trecs idc))).dedup = [] then none
      else
        some (Issue.ref sname tname col
          (((childVals srecs col).filter
            (fun v => decide (v ∉ parentIds trecs idc))).dedup))

/-- The low-cardinality bound on candidate determinants. -/
def fdCardinalityBound : Nat := 50

/-- Modelled from the spec: the functional-dependency check for one column
pair — a low-cardinality determinant violates the dependency when two rows
share its value yet differ in the dependent column; the issue carries a
concrete counterexample. -/
def fdIssueFor (tname : String) (records : List Rec) (det dep : String) :
    Option Issue :=
  if det = dep then none
  else if fdCardinalityBound <
      (records.map (fun r => getFieldD r det)).dedup.length then none
  else
    match (records.map (fun r => (getFieldD r det, getFieldD r dep))).find?
        (fun p => (records.map (fun r =>
          (getFieldD r det, getFieldD r dep))).any
            (fun q => decide (q.1 = p.1 ∧ q.2 ≠ p.2))) with
    | none => none
    | some p =>
      match (records.map (fun r => (getFieldD r det, getFieldD r dep))).find?
          (fun q => decide (q.1 = p.1 ∧ q.2 ≠ p.2)) with
      | none => none
      | some q => some (Issue.fd tname det dep p.1 p.2 q.2)

/-- The functional-dependency issues of every table. -/
def fdIssues (tables : List (String × List Rec)) : List Issue :=
  tables.flatMap (fun p =>
    let cols := tableColumns p.2
    cols.flatMap (fun d => cols.filterMap (fun e => fdIssueFor p.1 p.2 d e)))

/-- Modelled from the spec: the integrity analyzer
(pandas_interpreter.check_referential_integrity is not part of src/) —
the referential issues of every table and child column followed by the
functional-dependency issues. -/
def check_referential_integrity (tables : List (String × List Rec)) :
    List Issue :=
  (tables.flatMap (fun p =>
    (tableColumns p.2).filterMap (refIssueFor tables p.1 p.2))) ++
    fdIssues tables

/-- Whether an issue is a referential-integrity issue. -/
def isRefB : Issue → Bool
  | Issue.ref _ _ _ _ => true
  | Issue.fd _ _ _ _ _ _ => false

/-- The referential-integrity issues among an issue list. -/
def refIssues (issues : List Issue) : List Issue :=
  issues.filter isRefB

/-- Left-biased choice of options, used to state the results-dictionary
characterization. -/
def orOpt {α : Type} : Option α → Option α → Option α
  | some a, _ => some a
  | none, b => b

/-- The per-target result recorded for a type after a full run: the result
of processing the last spec of that type. -/
def lastMatchResult {δ κ : Type} (registry : String → Option (Target δ κ))
    (data : δ) (specs : List (TargetSpec κ)) (t : String) :
    Option TargetResult :=
  match (specs.filter (fun s => decide (s.typeKey = some t))).getLast? with
  | none => none
  | some s =>
    match runSpec registry data s with
    | Except.ok p => some p.2
    | Except.error _ => none

/-- A successfully uploaded demonstration object. -/
def demoFile : UploadedFile :=
  ⟨"test-bucket", "data/orders/orders.csv".data, [], "STANDARD", "AES256", 0⟩

/-- A successful per-target result carrying one uploaded file. -/
def demoOkResult : TargetResult :=
  ⟨true, none, some [demoFile]⟩

/-- A target that validates and loads successfully. -/
def demoTarget : Target Nat Nat :=
  ⟨fun _ _ => Except.ok true, fun _ _ => Except.ok demoOkResult⟩

/-- A registry with one registered type. -/
def demoRegistry : String → Option (Target Nat Nat) :=
  fun t => if t = "s3" then some demoTarget else none

/-- One unsupported spec followed by one valid and successful spec. -/
def demoSpecs : List (TargetSpec Nat) :=
  [⟨some "dynamo", some 0⟩, ⟨some "s3", some 0⟩]

/-- A target whose load raises. -/
def demoThrowTarget : Target Nat Nat :=
  ⟨fun _ _ => Except.ok true, fun _ _ => Except.error "boom"⟩

/-- A registry whose one target raises on load. -/
def demoThrowRegistry : String → Option (Target Nat Nat) :=
  fun t => if t = "s3" then some demoThrowTarget else none

/-- A target that accepts only config 1. -/
def demoCfgTarget : Target Nat Nat :=
  ⟨fun _ c => Except.ok (decide (c = 1)), fun _ _ => Except.ok demoOkResult⟩

/-- A registry whose one target accepts only config 1. -/
def demoCfgRegistry : String → Option (Target Nat Nat) :=
  fun t => if t = "s3" then some demoCfgTarget else none

/-- Two specs of the same type: the first fails validation, the second
succeeds. -/
def demoDupSpecs : List (TargetSpec Nat) :=
  [⟨some "s3", some 0⟩, ⟨some "s3", some 1⟩]

/-- The customers table of the referential-integrity example. -/
def demoCustomers : List Rec :=
  [[("id", Value.intV 1)], [("id", Value.intV 2)]]

/-- The orders table of the referential-integrity example; the second row
references the absent customer 99. -/
def demoOrdersRecs : List Rec :=
  [[("order_id", Value.intV 1), ("customer_id", Value.intV 1)],
   [("order_id", Value.intV 2), ("customer_id", Value.intV 99)]]

/-- The two-table example of the referential-integrity claim. -/
def demoTables : List (String × List Rec) :=
  [("customers", demoCustomers), ("orders", demoOrdersRecs)]

/-- An orders table with two distinct status values across three rows. -/
def demoPartRecords : List Rec :=
  [[("order_id", Value.intV 1), ("status", Value.strV "pending"),
      ("amount", Value.intV 100)],
   [("order_id", Value.intV 2), ("status", Value.strV "completed"),
      ("amount", Value.intV 200)],
   [("order_id", Value.intV 3), ("status", Value.strV "pending"),
      ("amount", Value.intV 300)]]

/-- An S3 config with partitioning on status and partition columns
dropped. -/
def demoS3Config : S3Config :=
  ⟨"test-bucket", "data/", "csv", some ⟨true, ["status"], true⟩,
    "STANDARD", "AES256"⟩

/-- Records violating both the uniform-schema check and the
duplicate-identifier check. -/
def demoBothBad : List Rec :=
  [[("id", Value.intV 1), ("name", Value.strV "John")],
   [("id", Value.intV 1), ("email", Value.strV "john at example")]]

/-- Well-formed records: uniform keys and distinct identifiers. -/
def demoValid : List Rec :=
  [[("id", Value.intV 1), ("name", Value.strV "John")],
   [("id", Value.intV 2), ("name", Value.strV "Jane")]]

/-- A table mapping with one valid and one invalid table. -/
def demoSaveData : List (String × List Rec) :=
  [("customers", demoValid), ("orders", demoBothBad)]

/-- A source that references the name os, which the restricted context
does not bind. -/
def demoOsStmts : List Stmt :=
  [⟨"result", ["os"], false⟩]

theorem orOpt_none_right {α : Type} (x : Option α) : orOpt x none = x := by
  cases x <;> rfl

theorem dictLookup_dictInsert_self {α : Type} (d : List (String × α))
    (k : String) (v : α) : dictLookup (dictInsert d k v) k = some v := by
  induction d with
  | nil => simp [dictInsert, dictLookup]
  | cons p rest ih =>
    obtain ⟨k', w⟩ := p
    by_cases h : k' = k
    · simp [dictInsert, h, dictLookup]
    · simp [dictInsert, h, dictLookup, ih]

theorem dictLookup_dictInsert_ne {α : Type} (d : List (String × α))
    (k k' : String) (v : α) (h : k' ≠ k) :
    dictLookup (dictInsert d k v) k' = dictLookup d k' := by
  have hkk : ¬ k = k' := fun he => h he.symm
  induction d with
  | nil => simp [dictInsert, dictLookup, hkk]
  | cons p rest ih =>
    obtain ⟨a, w⟩ := p
    by_cases ha : a = k
    · subst ha
      simp [dictInsert, dictLookup, hkk]
    · by_cases ha' : a = k'
      · simp [dictInsert, ha, dictLookup, ha', h]
      · simp [dictInsert, ha, dictLookup, ha', ih]

theorem dictInsert_mem_keys {α : Type} (d : List (String × α))
    (k k' : String) (v : α) :
    k' ∈ (dictInsert d k v).map Prod.fst ↔
      k' = k ∨ k' ∈ d.map Prod.fst := by
  induction d with
  | nil => simp [dictInsert]
  | cons p rest ih =>
    obtain ⟨a, w⟩ := p
    by_cases ha : a = k
    · subst ha
      simp [dictInsert]
    · simp only [dictInsert, if_neg ha, List.map_cons, List.mem_cons, ih]
      tauto

theorem dictInsert_keys_nodup {α : Type} (d : List (String × α))
    (k : String) (v : α) (h : (d.map Prod.fst).Nodup) :
    ((dictInsert d k v).map Prod.fst).Nodup := by
  induction d with
  | nil => simp [dictInsert]
  | cons p rest ih =>
    obtain ⟨a, w⟩ := p
    simp only [List.map_cons, List.nodup_cons] at h
    by_cases ha : a = k
    · subst ha
      simpa [dictInsert] using h
    · have h2 := ih h.2
      have h1 : a ∉ (dictInsert rest k v).map Prod.fst := by
        rw [dictInsert_mem_keys]
        rintro (rfl | hm)
        · exact ha rfl
        · exact h.1 hm
      simp only [dictInsert, if_neg ha, List.map_cons, List.nodup_cons]
      exact ⟨h1, h2⟩

theorem runSpec_of_specSafe {δ κ : Type}
    (registry : String → Option (Target δ κ)) (data : δ) (s : TargetSpec κ)
    (h : specSafe registry data s) :
    ∃ t r, runSpec registry data s = Except.ok (t, r) ∧
      s.typeKey = some t := by
  obtain ⟨t, ht, hrest⟩ := h
  cases hreg : registry t with
  | none =>
    refine ⟨t, ⟨false, some ("Unsupported target type: " ++ t), none⟩, ?_, ht⟩
    simp [runSpec, ht, hreg]
  | some tgt =>
    obtain ⟨c, hc, b, hb⟩ := hrest tgt hreg
    cases b with
    | false =>
      refine ⟨t, ⟨false, some "Invalid configuration or data", none⟩, ?_, ht⟩
      simp [runSpec, ht, hreg, hc, hb]
    | true =>
      cases hload : tgt.load data c with
      | ok r =>
        refine ⟨t, r, ?_, ht⟩
        simp [runSpec, ht, hreg, hc, hb, hload]
      | error e =>
        refine ⟨t, ⟨false, some e, none⟩, ?_, ht⟩
        simp [runSpec, ht, hreg, hc, hb, hload]

theorem lastMatchResult_isSome {δ κ : Type}
    (registry : String → Option (Target δ κ)) (data : δ)
    (specs : List (TargetSpec κ)) (t : String)
    (h : ∀ s ∈ specs, specSafe registry data s)
    (s : TargetSpec κ) (hs : s ∈ specs) (ht : s.typeKey = some t) :
    (lastMatchResult registry data specs t).isSome := by
  have hfil : specs.filter (fun s => decide (s.typeKey = some t)) ≠ [] := by
    intro he
    have := List.filter_eq_nil_iff.mp he s hs
    simp [ht] at this
  obtain ⟨a, ha⟩ := Option.isSome_iff_exists.mp
    (List.getLast?_isSome.mpr hfil)
  have hamem : a ∈ specs.filter (fun s => decide (s.typeKey = some t)) :=
    List.mem_of_mem_getLast? ha
  have haspec : a ∈ specs := (List.mem_filter.mp hamem).1
  obtain ⟨t', r, hrun, ht'⟩ := runSpec_of_specSafe registry data a (h a haspec)
  simp [lastMatchResult, ha, hrun]

theorem loadLoop_char {δ κ : Type}
    (registry : String → Option (Target δ κ)) (data : δ)
    (specs : List (TargetSpec κ))
    (h : ∀ s ∈ specs, specSafe registry data s) :
    ∀ acc, ∃ res, loadLoop registry data specs acc = Except.ok res ∧
      (∀ t, dictLookup res t =
        orOpt (lastMatchResult registry data specs t) (dictLookup acc t)) ∧
      ((acc.map Prod.fst).Nodup → (res.map Prod.fst).Nodup) := by
  induction specs with
  | nil =>
    intro acc
    refine ⟨acc, rfl, ?_, fun hn => hn⟩
    intro t
    simp [lastMatchResult, orOpt]
  | cons s rest ih =>
    intro acc
    obtain ⟨t0, r0, hrun, ht0⟩ :=
      runSpec_of_specSafe registry data s (h s (by simp))
    have hrest : ∀ x ∈ rest, specSafe registry data x :=
      fun x hx => h x (by simp [hx])
    obtain ⟨res, hres, hlook, hnd⟩ := ih hrest (dictInsert acc t0 r0)
    refine ⟨res, ?_, ?_, ?_⟩
    · simp [loadLoop, hrun, hres]
    · intro t
      by_cases hteq : t = t0
      · subst hteq
        rw [hlook t]
        rw [dictLookup_dictInsert_self]
        by_cases hfil :
            rest.filter (fun x => decide (x.typeKey = some t)) = []
        · have hlast : lastMatchResult registry data rest t = none := by
            simp [lastMatchResult, hfil]
          have hstep : lastMatchResult registry data (s :: rest) t =
              some r0 := by
            simp only [lastMatchResult, List.filter_cons]
            rw [if_pos (by simp [ht0]), hfil]
            simp [hrun]
          rw [hlast, hstep]
          rfl
        · obtain ⟨a, ha⟩ := Option.isSome_iff_exists.mp
            (List.getLast?_isSome.mpr hfil)
          have hamem := List.mem_of_mem_getLast? ha
          have haspec : a ∈ rest := (List.mem_filter.mp hamem).1
          obtain ⟨t', r', hrun', ht''⟩ :=
            runSpec_of_specSafe registry data a (hrest a haspec)
          have hlast : lastMatchResult registry data rest t = some r' := by
            simp [lastMatchResult, ha, hrun']
          have hstep : lastMatchResult registry data (s :: rest) t =
              some r' := by
            simp only [lastMatchResult, List.filter_cons]
            rw [if_pos (by simp [ht0])]
            rw [List.getLast?_cons, ha]
            simp [hrun']
          rw [hlast, hstep]
          rfl
      · rw [hlook t]
        rw [dictLookup_dictInsert_ne _ _ _ _ hteq]
        have hstep : lastMatchResult registry data (s :: rest) t =
            lastMatchResult registry data rest t := by
          unfold lastMatchResult
          simp only [List.filter_cons]
          rw [if_neg (by simp [ht0]; exact fun he => hteq he.symm)]
        rw [hstep]
    · intro hacc
      exact hnd (dictInsert_keys_nodup acc t0 r0 hacc)

theorem load_data_total {δ κ : Type}
    (registry : String → Option (Target δ κ)) (data : δ)
    (specs : List (TargetSpec κ))
    (h : ∀ s ∈ specs, specSafe registry data s) :
    ∃ env, load_data registry data specs = Except.ok env ∧
      env.success = env.results.all (fun p => p.2.success) ∧
      (∀ t, dictLookup env.results t =
        lastMatchResult registry data specs t) ∧
      (env.results.map Prod.fst).Nodup := by
  obtain ⟨res, hres, hlook, hnd⟩ := loadLoop_char registry data specs h []
  refine ⟨⟨res.all (fun p => p.2.success), res⟩, ?_, rfl, ?_, ?_⟩
  · simp [load_data, hres]
  · intro t
    have := hlook t
    simpa [dictLookup, orOpt_none_right] using this
  · exact hnd (by simp)

/-- C1: for every table mapping and ordered spec list whose specs carry
their keys and whose targets validate without raising, load_data returns
its envelope with no spec aborting the rest: every spec type is recorded
in the results mapping, and the overall success flag equals the
conjunction of the per-target success flags — unsupported types, failed
validations and raised load errors are all recorded per target rather
than propagated. -/
theorem c1_load_data_isolates_failures {δ κ : Type}
    (registry : String → Option (Target δ κ)) (data : δ)
    (specs : List (TargetSpec κ))
    (h : ∀ s ∈ specs, specSafe registry data s) :
    ∃ env, load_data registry data specs = Except.ok env ∧
      env.success = env.results.all (fun p => p.2.success) ∧
      ∀ s ∈ specs, ∀ t, s.typeKey = some t →
        (dictLookup env.results t).isSome := by
  obtain ⟨env, henv, hsucc, hlook, _⟩ := load_data_total registry data specs h
  refine ⟨env, henv, hsucc, ?_⟩
  intro s hs t ht
  rw [hlook t]
  exact lastMatchResult_isSome registry data specs t h s hs ht

/-- Witness for C1: one unsupported spec followed by one valid and
successful spec — overall success is false, yet the valid target and its
uploaded files appear in the results. -/
theorem c1_witness :
    (∃ env, load_data demoRegistry 0 demoSpecs = Except.ok env ∧
      env.success = env.results.all (fun p => p.2.success) ∧
      ∀ s ∈ demoSpecs, ∀ t, s.typeKey = some t →
        (dictLookup env.results t).isSome) ∧
    load_data demoRegistry 0 demoSpecs = Except.ok ⟨false,
      [("dynamo", ⟨false, some "Unsupported target type: dynamo", none⟩),
       ("s3", demoOkResult)]⟩ := by
  have hsafe : ∀ s ∈ demoSpecs, specSafe demoRegistry 0 s := by
    intro s hs
    simp only [demoSpecs, List.mem_cons, List.not_mem_nil, or_false] at hs
    rcases hs with rfl | rfl
    · refine ⟨"dynamo", rfl, fun tgt hreg => ?_⟩
      have hd : demoRegistry "dynamo" = none := rfl
      rw [hd] at hreg
      cases hreg
    · refine ⟨"s3", rfl, fun tgt hreg => ?_⟩
      have hd : demoRegistry "s3" = some demoTarget := rfl
      rw [hd] at hreg
      cases Option.some.inj hreg
      exact ⟨0, rfl, true, rfl⟩
  exact ⟨c1_load_data_isolates_failures demoRegistry 0 demoSpecs hsafe, rfl⟩

/-- C2 (amended): load_data catches an error raised by a target load and
records it as that target per-target failure, and for specs that carry
both keys and whose targets validate without raising it returns an
envelope; a spec lacking its type or config key, or a validate that
raises, propagates the exception to the caller instead (see the
counterexample). -/
theorem c2_load_errors_recorded {δ κ : Type}
    (registry : String → Option (Target δ κ)) (data : δ)
    (specs : List (TargetSpec κ))
    (h : ∀ s ∈ specs, specSafe registry data s) :
    (∃ env, load_data registry data specs = Except.ok env) ∧
    ∀ s ∈ specs, ∀ t tgt c e, s.typeKey = some t → registry t = some tgt →
      s.configKey = some c → tgt.validate data c = Except.ok true →
      tgt.load data c = Except.error e →
      runSpec registry data s = Except.ok (t, ⟨false, some e, none⟩) := by
  constructor
  · obtain ⟨env, henv, _, _, _⟩ := load_data_total registry data specs h
    exact ⟨env, henv⟩
  · intro s hs t tgt c e ht hreg hc hval hload
    simp [runSpec, ht, hreg, hc, hval, hload]

/-- Counterexample for C2 as stated: a target spec lacking its type key
makes load_data propagate the KeyError uncaught rather than return an
envelope. -/
theorem c2_counterexample :
    load_data demoRegistry 0 [(⟨none, none⟩ : TargetSpec Nat)] =
      Except.error "KeyError: type" := rfl

/-- Witness for C2: a target whose load raises has the error recorded in
its per-target result while the call still returns an envelope. -/
theorem c2_witness :
    (∃ env, load_data demoThrowRegistry 0
      [(⟨some "s3", some 0⟩ : TargetSpec Nat)] = Except.ok env) ∧
    runSpec demoThrowRegistry 0 (⟨some "s3", some 0⟩ : TargetSpec Nat) =
      Except.ok ("s3", ⟨false, some "boom", none⟩) ∧
    load_data demoThrowRegistry 0 [(⟨some "s3", some 0⟩ : TargetSpec Nat)] =
      Except.ok ⟨false, [("s3", ⟨false, some "boom", none⟩)]⟩ := by
  have hsafe : ∀ s ∈ [(⟨some "s3", some 0⟩ : TargetSpec Nat)],
      specSafe demoThrowRegistry 0 s := by
    intro s hs
    simp only [List.mem_cons, List.not_mem_nil, or_false] at hs
    subst hs
    refine ⟨"s3", rfl, fun tgt hreg => ?_⟩
    have hd : demoThrowRegistry "s3" = some demoThrowTarget := rfl
    rw [hd] at hreg
    cases Option.some.inj hreg
    exact ⟨0, rfl, true, rfl⟩
  refine ⟨(c2_load_errors_recorded demoThrowRegistry 0 _ hsafe).1, ?_, rfl⟩
  exact (c2_load_errors_recorded demoThrowRegistry 0 _ hsafe).2
    ⟨some "s3", some 0⟩ (by simp) "s3" demoThrowTarget 0 "boom"
    rfl rfl rfl rfl rfl

/-- C9: for an empty list of target specs, load_data returns overall
success true with an empty results mapping, regardless of the data
argument. -/
theorem c9_load_data_empty_specs {δ κ : Type}
    (registry : String → Option (Target δ κ)) (data : δ) :
    load_data registry data ([] : List (TargetSpec κ)) =
      Except.ok ⟨true, []⟩ := rfl

/-- C10: the results mapping has exactly one entry per distinct target
type, and the entry recorded for a type is the result of processing the
last spec of that type — a later spec of the same type overwrites the
earlier one. -/
theorem c10_results_one_entry_per_type {δ κ : Type}
    (registry : String → Option (Target δ κ)) (data : δ)
    (specs : List (TargetSpec κ))
    (h : ∀ s ∈ specs, specSafe registry data s) :
    ∃ env, load_data registry data specs = Except.ok env ∧
      (env.results.map Prod.fst).Nodup ∧
      ∀ t, dictLookup env.results t =
        lastMatchResult registry data specs t := by
  obtain ⟨env, henv, _, hlook, hnd⟩ := load_data_total registry data specs h
  exact ⟨env, henv, hnd, hlook⟩

/-- Witness for C10: two specs of the same type where the first fails
validation and the second succeeds — the surviving entry is the second
result and overall success is true. -/
theorem c10_witness :
    (∃ env, load_data demoCfgRegistry 0 demoDupSpecs = Except.ok env ∧
      (env.results.map Prod.fst).Nodup ∧
      ∀ t, dictLookup env.results t =
        lastMatchResult demoCfgRegistry 0 demoDupSpecs t) ∧
    load_data demoCfgRegistry 0 demoDupSpecs =
      Except.ok ⟨true, [("s3", demoOkResult)]⟩ ∧
    lastMatchResult demoCfgRegistry 0 demoDupSpecs "s3" = some demoOkResult ∧
    runSpec demoCfgRegistry 0 (⟨some "s3", some 0⟩ : TargetSpec Nat) =
      Except.ok ("s3", ⟨false, some "Invalid configuration or data", none⟩) := by
  have hsafe : ∀ s ∈ demoDupSpecs, specSafe demoCfgRegistry 0 s := by
    intro s hs
    simp only [demoDupSpecs, List.mem_cons, List.not_mem_nil, or_false] at hs
    rcases hs with rfl | rfl
    · refine ⟨"s3", rfl, fun tgt hreg => ?_⟩
      have hd : demoCfgRegistry "s3" = some demoCfgTarget := rfl
      rw [hd] at hreg
      cases Option.some.inj hreg
      exact ⟨0, rfl, false, rfl⟩
    · refine ⟨"s3", rfl, fun tgt hreg => ?_⟩
      have hd : demoCfgRegistry "s3" = some demoCfgTarget := rfl
      rw [hd] at hreg
      cases Option.some.inj hreg
      exact ⟨1, rfl, true, rfl⟩
  exact ⟨c10_results_one_entry_per_type demoCfgRegistry 0 demoDupSpecs hsafe,
    rfl, rfl, rfl⟩

theorem splitSep_of_not_mem (sep : Char) (x : List Char) (h : sep ∉ x) :
    splitSep sep x = [x] := by
  induction x with
  | nil => rfl
  | cons c rest ih =>
    simp only [List.mem_cons, not_or] at h
    have hc : ¬ c = sep := fun he => h.1 he.symm
    simp only [splitSep, if_neg hc, ih h.2]

theorem splitSep_append_sep (sep : Char) (x t : List Char) (h : sep ∉ x) :
    splitSep sep (x ++ sep :: t) = x :: splitSep sep t := by
  induction x with
  | nil => simp [splitSep]
  | cons c rest ih =>
    simp only [List.mem_cons, not_or] at h
    have hc : ¬ c = sep := fun he => h.1 he.symm
    simp only [List.cons_append, splitSep, if_neg hc, List.append_eq, ih h.2]

theorem splitSep_joinSep (sep : Char) :
    ∀ xs : List (List Char), xs ≠ [] → (∀ x ∈ xs, sep ∉ x) →
      splitSep sep (joinSep sep xs) = xs
  | [], h, _ => absurd rfl h
  | [x], _, hx => by
    simp only [joinSep]
    exact splitSep_of_not_mem sep x (hx x (by simp))
  | x :: y :: rest, _, hx => by
    simp only [joinSep]
    rw [splitSep_append_sep sep x _ (hx x (by simp))]
    rw [splitSep_joinSep sep (y :: rest) (by simp)
      (fun z hz => hx z (by simp [List.mem_cons] at hz ⊢; tauto))]

theorem mem_joinSep (sep : Char) :
    ∀ xs : List (List Char), ∀ c ∈ joinSep sep xs,
      c = sep ∨ ∃ x ∈ xs, c ∈ x
  | [], c, hc => absurd hc (by simp [joinSep])
  | [x], c, hc => Or.inr ⟨x, by simp, by simpa [joinSep] using hc⟩
  | x :: y :: rest, c, hc => by
    simp only [joinSep, List.mem_append, List.mem_cons] at hc
    rcases hc with hcx | hcs | hcj
    · exact Or.inr ⟨x, by simp, hcx⟩
    · exact Or.inl hcs
    · rcases mem_joinSep sep (y :: rest) c hcj with hs | ⟨z, hz, hcz⟩
      · exact Or.inl hs
      · exact Or.inr ⟨z, by simp [List.mem_cons] at hz ⊢; tauto, hcz⟩

theorem csvLines_csvEncode (cols : List String) (rows : List Rec)
    (hcol : ∀ c ∈ cols, '\n' ∉ c.data)
    (hcell : ∀ r ∈ rows, ∀ cell ∈ rowCells cols r, '\n' ∉ cell) :
    csvLines (csvEncode cols rows) =
      joinSep ',' (cols.map String.data) ::
        rows.map (fun r => joinSep ',' (rowCells cols r)) := by
  unfold csvLines csvEncode
  apply splitSep_joinSep
  · simp
  · intro l hl
    simp only [List.mem_cons, List.mem_map] at hl
    rcases hl with rfl | ⟨r, hr, rfl⟩
    · intro hmem
      rcases mem_joinSep ',' _ '\n' hmem with he | ⟨x, hx, hcx⟩
      · exact absurd he (by decide)
      · obtain ⟨c, hc, rfl⟩ := List.mem_map.mp hx
        exact hcol c hc hcx
    · intro hmem
      rcases mem_joinSep ',' _ '\n' hmem with he | ⟨x, hx, hcx⟩
      · exact absurd he (by decide)
      · exact hcell r hr x hx hcx

theorem csvCols_csvEncode (cols : List String) (rows : List Rec)
    (hne : cols ≠ [])
    (hcol : ∀ c ∈ cols, ',' ∉ c.data ∧ '\n' ∉ c.data)
    (hcell : ∀ r ∈ rows, ∀ cell ∈ rowCells cols r,
      ',' ∉ cell ∧ '\n' ∉ cell) :
    csvCols (csvEncode cols rows) = cols.map String.data := by
  unfold csvCols
  rw [csvLines_csvEncode cols rows (fun c hc => (hcol c hc).2)
    (fun r hr cell hcl => (hcell r hr cell hcl).2)]
  simp only [List.headD_cons]
  apply splitSep_joinSep
  · simpa using hne
  · intro x hx
    obtain ⟨c, hc, rfl⟩ := List.mem_map.mp hx
    exact (hcol c hc).1

theorem csvRowCount_csvEncode (cols : List String) (rows : List Rec)
    (hcol : ∀ c ∈ cols, '\n' ∉ c.data)
    (hcell : ∀ r ∈ rows, ∀ cell ∈ rowCells cols r, '\n' ∉ cell) :
    csvRowCount (csvEncode cols rows) = rows.length := by
  unfold csvRowCount
  rw [csvLines_csvEncode cols rows hcol hcell]
  simp

/-- C7: serializing a table to its delimited file and re-materializing it
from that file yields the same column names in the same order and the same
row count, for every table whose column names and rendered cells are free
of the delimiter characters. -/
theorem c7_round_trip (cols : List String) (rows : List Rec)
    (hne : cols ≠ [])
    (hcol : ∀ c ∈ cols, ',' ∉ c.data ∧ '\n' ∉ c.data)
    (hcell : ∀ r ∈ rows, ∀ cell ∈ rowCells cols r,
      ',' ∉ cell ∧ '\n' ∉ cell) :
    csvCols (csvEncode cols rows) = cols.map String.data ∧
    csvRowCount (csvEncode cols rows) = rows.length :=
  ⟨csvCols_csvEncode cols rows hne hcol hcell,
    csvRowCount_csvEncode cols rows (fun c hc => (hcol c hc).2)
      (fun r hr cell hcl => (hcell r hr cell hcl).2)⟩

/-- Witness for C7: the two-column sample table round-trips to the same
columns and row count. -/
theorem c7_witness :
    csvCols (csvEncode ["id", "name"] demoValid) =
      ["id", "name"].map String.data ∧
    csvRowCount (csvEncode ["id", "name"] demoValid) = demoValid.length :=
  c7_round_trip ["id", "name"] demoValid (by decide) (by decide) (by decide)

/-- C3: the validation service short-circuits an empty table with exactly
one cannot-be-empty error; on a non-empty table the uniform-schema check
and the duplicate-identifier check both run and accumulate, so a table
violating both carries both the same-keys error and the duplicate-ids
error; and a non-empty uniform table without duplicate identifiers is
valid with no errors. -/
theorem c3_validate_table_data (name : String) :
    (validate_table_data name [] = ⟨name, false, [emptyMsg name]⟩ ∧
      ∃ l r, (emptyMsg name).data = l ++ "cannot be empty".data ++ r) ∧
    (∀ records : List Rec, records ≠ [] → uniformKeys records = false →
      dupIds records ≠ [] →
      (validate_table_data name records).is_valid = false ∧
      (validate_table_data name records).errors =
        [keysMsg name, dupMsg name (dupIds records)] ∧
      (∃ l r, (keysMsg name).data =
        l ++ "must have the same keys".data ++ r) ∧
      (∃ l r, (dupMsg name (dupIds records)).data =
        l ++ "Duplicate IDs".data ++ r)) ∧
    (∀ records : List Rec, records ≠ [] → uniformKeys records = true →
      dupIds records = [] →
      validate_table_data name records = ⟨name, true, []⟩) := by
  refine ⟨⟨rfl, ?_⟩, ?_, ?_⟩
  · refine ⟨"Table ".data ++ name.data ++ [' '], [], ?_⟩
    have hsp : " cannot be empty".data = ' ' :: "cannot be empty".data := by
      decide
    simp [emptyMsg, String.data_append, hsp]
  · intro records hne huni hdup
    cases records with
    | nil => exact absurd rfl hne
    | cons r0 rest =>
      have hie : ((dupIds (r0 :: rest)).isEmpty) = false := by
        cases hd : dupIds (r0 :: rest) with
        | nil => exact absurd hd hdup
        | cons a l => rfl
      refine ⟨?_, ?_, ?_, ?_⟩
      · simp [validate_table_data, huni, hie]
      · simp [validate_table_data, huni, hie]
      · refine ⟨"All records in table ".data ++ name.data ++ [' '], [], ?_⟩
        have hsp : " must have the same keys".data =
            ' ' :: "must have the same keys".data := by decide
        simp [keysMsg, String.data_append, hsp]
      · refine ⟨[], " found in table ".data ++ name.data ++
          (": " ++ renderValues (dupIds (r0 :: rest))).data, ?_⟩
        have hsp : "Duplicate IDs found in table ".data =
            "Duplicate IDs".data ++ " found in table ".data := by decide
        simp [dupMsg, String.data_append, hsp]
  · intro records hne huni hdup
    cases records with
    | nil => exact absurd rfl hne
    | cons r0 rest =>
      simp [validate_table_data, huni, hdup]

/-- Witness for C3: the empty table, the table violating both checks, and
the valid table, each at a concrete input. -/
theorem c3_witness :
    (validate_table_data "test_table" [] =
      ⟨"test_table", false, [emptyMsg "test_table"]⟩) ∧
    ((validate_table_data "test_table" demoBothBad).is_valid = false ∧
      (validate_table_data "test_table" demoBothBad).errors =
        [keysMsg "test_table", dupMsg "test_table" (dupIds demoBothBad)]) ∧
    validate_table_data "test_table" demoValid =
      ⟨"test_table", true, []⟩ := by
  have h := c3_validate_table_data "test_table"
  have hb := h.2.1 demoBothBad (by decide) (by decide) (by decide)
  exact ⟨h.1.1, ⟨hb.1, hb.2.1⟩,
    h.2.2 demoValid (by decide) (by decide) (by decide)⟩

theorem dictLookup_map_graph {β γ : Type} (l : List (String × β))
    (g : String × β → γ) (hnd : (l.map Prod.fst).Nodup) :
    ∀ p ∈ l, dictLookup (l.map (fun q => (q.1, g q))) p.1 = some (g p) := by
  induction l with
  | nil => intro p hp; cases hp
  | cons q rest ih =>
    simp only [List.map_cons, List.nodup_cons] at hnd
    intro p hp
    rcases List.mem_cons.mp hp with rfl | hp'
    · simp [dictLookup]
    · have hne : ¬ q.1 = p.1 := by
        intro he
        exact hnd.1 (he ▸ List.mem_map.mpr ⟨p, hp', rfl⟩)
      simp only [List.map_cons, dictLookup, if_neg hne]
      exact ih hnd.2 p hp'

/-- C4: validate_and_save_data persists every table and reports its row
count and file path regardless of its validation result, and the overall
success flag is true even when some table fails validation. -/
theorem c4_save_regardless_of_validity (data : List (String × List Rec))
    (dir : String) (hnd : (data.map Prod.fst).Nodup) :
    (validate_and_save_data data dir).success = true ∧
    ∀ p ∈ data,
      dictLookup (validate_and_save_data data dir).csv_paths p.1 =
        some (dir ++ "/" ++ p.1 ++ ".csv") ∧
      dictLookup (validate_and_save_data data dir).row_counts p.1 =
        some p.2.length ∧
      dictLookup (validate_and_save_data data dir).validation_results p.1 =
        some (validate_table_data p.1 p.2) := by
  refine ⟨rfl, ?_⟩
  intro p hp
  exact ⟨dictLookup_map_graph data _ hnd p hp,
    dictLookup_map_graph data _ hnd p hp,
    dictLookup_map_graph data _ hnd p hp⟩

/-- Witness for C4: a mapping with one valid and one invalid table — the
invalid table still gets its path and row count, and the call succeeds. -/
theorem c4_witness :
    (validate_and_save_data demoSaveData "/tmp").success = true ∧
    dictLookup (validate_and_save_data demoSaveData "/tmp").csv_paths
      "orders" = some "/tmp/orders.csv" ∧
    dictLookup (validate_and_save_data demoSaveData "/tmp").row_counts
      "orders" = some 2 ∧
    (validate_table_data "orders" demoBothBad).is_valid = false := by
  have h := c4_save_regardless_of_validity demoSaveData "/tmp" (by decide)
  have h2 := h.2 ("orders", demoBothBad) (by decide)
  exact ⟨h.1, h2.1, h2.2.1, by decide⟩

theorem resolveNames_none_bound (ctx : List String) (stmts : List Stmt)
    (h : resolveNames ctx stmts = none) :
    ∀ s ∈ stmts, ∀ u ∈ s.uses, u ∈ ctx ∨ u ∈ stmts.map Stmt.target := by
  induction stmts generalizing ctx with
  | nil => intro s hs; cases hs
  | cons s0 rest ih =>
    intro s hs u hu
    have hsplit : s0.uses.find? (fun n => !(decide (n ∈ ctx))) = none ∧
        resolveNames (s0.target :: ctx) rest = none := by
      cases hf : s0.uses.find? (fun n => !(decide (n ∈ ctx))) with
      | some m => simp [resolveNames, hf] at h
      | none =>
        refine ⟨rfl, ?_⟩
        simpa [resolveNames, hf] using h
    rcases List.mem_cons.mp hs with rfl | hs'
    · have hx := List.find?_eq_none.mp hsplit.1 u hu
      have hin : u ∈ ctx := by simpa using hx
      exact Or.inl hin
    · have := ih (s0.target :: ctx) hsplit.2 s hs' u hu
      rcases this with hin | htg
      · rcases List.mem_cons.mp hin with rfl | hin'
        · exact Or.inr (by simp)
        · exact Or.inl hin'
      · refine Or.inr ?_
        rw [List.map_cons]
        exact List.mem_cons.mpr (Or.inr htg)

/-- C5: a generation source that references a capability outside the
allow-list — os, sys or the dynamic-import hook — and never locally binds
it fails with a name-resolution error: the sandbox returns success false
and a NameError, because the name is simply absent from the restricted
context. -/
theorem c5_sandbox_name_resolution (stmts : List Stmt) (n : String)
    (hbad : n ∈ ["os", "sys", "__import__"])
    (huse : ∃ s ∈ stmts, n ∈ s.uses)
    (hdef : ∀ s ∈ stmts, s.target ≠ n) :
    (execute_pandas_code stmts).success = false ∧
    ∃ m, (execute_pandas_code stmts).error = some (nameErrorMsg m) := by
  cases hres : resolveNames restrictedContext stmts with
  | some m =>
    refine ⟨by simp [execute_pandas_code, hres], m,
      by simp [execute_pandas_code, hres]⟩
  | none =>
    exfalso
    obtain ⟨s, hs, hu⟩ := huse
    rcases resolveNames_none_bound restrictedContext stmts hres s hs n hu with
      hctx | htgt
    · have hpd : n = "pd" := by simpa [restrictedContext] using hctx
      subst hpd
      exact absurd hbad (by decide)
    · obtain ⟨s', hs', he⟩ := List.mem_map.mp htgt
      exact hdef s' hs' he

/-- Witness for C5: a source using the name os fails with success false
and a NameError naming os. -/
theorem c5_witness :
    ("os" ∈ ["os", "sys", "__import__"]) ∧
    (∃ s ∈ demoOsStmts, "os" ∈ s.uses) ∧
    (execute_pandas_code demoOsStmts).success = false ∧
    (∃ m, (execute_pandas_code demoOsStmts).error = some (nameErrorMsg m)) ∧
    (execute_pandas_code demoOsStmts).error =
      some "NameError: name os is not defined" := by
  have h := c5_sandbox_name_resolution demoOsStmts "os" (by decide)
    ⟨⟨"result", ["os"], false⟩, by decide, by decide⟩ (by decide)
  exact ⟨by decide, ⟨⟨"result", ["os"], false⟩, by decide, by decide⟩,
    h.1, h.2, rfl⟩

theorem fdIssueFor_ne_ref (tname : String) (records : List Rec)
    (det dep : String) (s t c : String) (vs : List Value) :
    fdIssueFor tname records det dep ≠ some (Issue.ref s t c vs) := by
  intro h
  unfold fdIssueFor at h
  split at h
  · cases h
  · split at h
    · cases h
    · split at h
      · cases h
      · split at h
        · cases h
        · cases h

theorem ref_not_mem_fdIssues (tables : List (String × List Rec))
    (s t c : String) (vs : List Value) :
    Issue.ref s t c vs ∉ fdIssues tables := by
  intro h
  obtain ⟨p, _, h2⟩ := List.mem_flatMap.mp h
  obtain ⟨d, _, h3⟩ := List.mem_flatMap.mp h2
  obtain ⟨e, _, h4⟩ := List.mem_filterMap.mp h3
  exact fdIssueFor_ne_ref p.1 p.2 d e s t c vs h4

theorem refIssueFor_spec_fwd (tables : List (String × List Rec))
    (sname : String) (srecs : List Rec) (col : String) (i : Issue)
    (h : refIssueFor tables sname srecs col = some i) :
    ∃ tname trecs idc,
      findParent tables sname col = some (tname, trecs) ∧
      idColumn tname trecs = some idc ∧
      ((childVals srecs col).filter
        (fun v => decide (v ∉ parentIds trecs idc))).dedup ≠ [] ∧
      i = Issue.ref sname tname col
        (((childVals srecs col).filter
          (fun v => decide (v ∉ parentIds trecs idc))).dedup) := by
  unfold refIssueFor at h
  split at h
  next heq => cases h
  next tname trecs heq =>
    split at h
    next heq2 => cases h
    next idc heq2 =>
      split at h
      next hemp => cases h
      next hemp =>
        exact ⟨tname, trecs, idc, heq, heq2, hemp, (Option.some.inj h).symm⟩

theorem refIssueFor_spec_bwd (tables : List (String × List Rec))
    (sname : String) (srecs : List Rec) (col tname : String)
    (trecs : List Rec) (idc : String)
    (hfp : findParent tables sname col = some (tname, trecs))
    (hid : idColumn tname trecs = some idc)
    (hex : ∃ v ∈ childVals srecs col, v ∉ parentIds trecs idc) :
    refIssueFor tables sname srecs col =
      some (Issue.ref sname tname col
        (((childVals srecs col).filter
          (fun v => decide (v ∉ parentIds trecs idc))).dedup)) := by
  obtain ⟨v, hv, hnv⟩ := hex
  have hne : ((childVals srecs col).filter
      (fun v => decide (v ∉ parentIds trecs idc))).dedup ≠ [] := by
    intro he
    have hvm : v ∈ (childVals srecs col).filter
        (fun v => decide (v ∉ parentIds trecs idc)) :=
      List.mem_filter.mpr ⟨hv, decide_eq_true hnv⟩
    rw [← List.mem_dedup] at hvm
    rw [he] at hvm
    cases hvm
  simp only [refIssueFor, hfp, hid, if_neg hne]

theorem nodup_keys_val_eq {β : Type} (l : List (String × β))
    (h : (l.map Prod.fst).Nodup) (k : String) (a b : β)
    (ha : (k, a) ∈ l) (hb : (k, b) ∈ l) : a = b := by
  induction l with
  | nil => cases ha
  | cons q rest ih =>
    simp only [List.map_cons, List.nodup_cons] at h
    rcases List.mem_cons.mp ha with rfl | ha'
    · rcases List.mem_cons.mp hb with he | hb'
      · injection he with h1 h2
        exact h2.symm
      · exact absurd (List.mem_map.mpr ⟨(k, b), hb', rfl⟩) h.1
    · rcases List.mem_cons.mp hb with rfl | hb'
      · exact absurd (List.mem_map.mpr ⟨(k, a), ha', rfl⟩) h.1
      · exact ih h.2 ha' hb'

/-- C6: on the two-table example the analyzer reports exactly one
referential-integrity issue, for orders referencing customers through
customer_id and citing the value 99; in general, for a child column
matching the foreign-key pattern whose parent carries an identifier
column, an issue for that (source, target, column) triple is reported
exactly when some child value is absent from the parent identifier set. -/
theorem c6_referential_integrity :
    refIssues (check_referential_integrity demoTables) =
      [Issue.ref "orders" "customers" "customer_id" [Value.intV 99]] ∧
    ∀ (tables : List (String × List Rec)) (sname : String)
      (srecs : List Rec) (col tname : String) (trecs : List Rec)
      (idc : String),
      (tables.map Prod.fst).Nodup →
      (sname, srecs) ∈ tables →
      col ∈ tableColumns srecs →
      findParent tables sname col = some (tname, trecs) →
      idColumn tname trecs = some idc →
      ((∃ vs, Issue.ref sname tname col vs ∈
          check_referential_integrity tables) ↔
        ∃ v ∈ childVals srecs col, v ∉ parentIds trecs idc) := by
  constructor
  · decide
  · intro tables sname srecs col tname trecs idc hnd hmem hcol hfp hid
    constructor
    · rintro ⟨vs, hvs⟩
      rcases List.mem_append.mp hvs with hleft | hright
      · obtain ⟨p, hp, h2⟩ := List.mem_flatMap.mp hleft
        obtain ⟨a, precs⟩ := p
        obtain ⟨c', hc', h3⟩ := List.mem_filterMap.mp h2
        obtain ⟨tname', trecs', idc', hfp', hid', hne', heq⟩ :=
          refIssueFor_spec_fwd tables a precs c' _ h3
        injection heq with e1 e2 e3 e4
        subst e1
        subst e2
        subst e3
        have hsrecs : precs = srecs :=
          nodup_keys_val_eq tables hnd sname precs srecs hp hmem
        subst hsrecs
        rw [hfp] at hfp'
        injection hfp' with hpair
        injection hpair with ht htr
        subst htr
        rw [hid] at hid'
        injection hid' with hidc
        subst hidc
        obtain ⟨v, hv⟩ := List.exists_mem_of_ne_nil _ hne'
        rw [List.mem_dedup] at hv
        obtain ⟨hvc, hvd⟩ := List.mem_filter.mp hv
        exact ⟨v, hvc, of_decide_eq_true hvd⟩
      · exact absurd hright (ref_not_mem_fdIssues tables sname tname col vs)
    · intro hex
      refine ⟨((childVals srecs col).filter
        (fun v => decide (v ∉ parentIds trecs idc))).dedup, ?_⟩
      apply List.mem_append.mpr
      refine Or.inl (List.mem_flatMap.mpr ⟨(sname, srecs), hmem, ?_⟩)
      exact List.mem_filterMap.mpr
        ⟨col, hcol, refIssueFor_spec_bwd tables sname srecs col tname trecs
          idc hfp hid hex⟩

/-- Witness for C6: the general criterion applied to the example tables
yields the issue for (orders, customers, customer_id), and the full
report is exactly that one referential issue. -/
theorem c6_witness :
    (∃ vs, Issue.ref "orders" "customers" "customer_id" vs ∈
      check_referential_integrity demoTables) ∧
    refIssues (check_referential_integrity demoTables) =
      [Issue.ref "orders" "customers" "customer_id" [Value.intV 99]] := by
  have h := c6_referential_integrity
  refine ⟨?_, h.1⟩
  refine (h.2 demoTables "orders" demoOrdersRecs "customer_id" "customers"
    demoCustomers "id" (by decide) (by decide) (by decide) (by decide)
    (by decide)).mpr ?_
  exact ⟨Value.intV 99, by decide, by decide⟩

theorem exceptMap_ok {α β : Type} (f : α → Except String β) (g : α → β)
    (l : List α) (h : ∀ a ∈ l, f a = Except.ok (g a)) :
    exceptMap f l = Except.ok (l.map g) := by
  induction l with
  | nil => rfl
  | cons a rest ih =>
    have ha := h a (by simp)
    have hr := ih (fun x hx => h x (by simp [hx]))
    simp only [exceptMap, ha, hr, List.map_cons]

theorem dictLookup_dropColsRec (pcols : List String) (r : Rec) (c : String)
    (hc : c ∉ pcols) :
    dictLookup (dropColsRec pcols r) c = dictLookup r c := by
  induction r with
  | nil => rfl
  | cons p rest ih =>
    obtain ⟨k, w⟩ := p
    by_cases hk : k ∈ pcols
    · have hkc : ¬ k = c := fun he => hc (he ▸ hk)
      simp only [dropColsRec, List.filter_cons]
      rw [if_neg (by simpa using hk)]
      rw [show dictLookup ((k, w) :: rest) c = dictLookup rest c by
        simp [dictLookup, hkc]]
      exact ih
    · simp only [dropColsRec, List.filter_cons]
      rw [if_pos (by simpa using hk)]
      by_cases hkc : k = c
      · simp [dictLookup, hkc]
      · simp only [dictLookup, if_neg hkc]
        exact ih

theorem getFieldD_dropColsRec (pcols : List String) (r : Rec) (c : String)
    (hc : c ∉ pcols) :
    getFieldD (dropColsRec pcols r) c = getFieldD r c := by
  unfold getFieldD
  rw [dictLookup_dropColsRec pcols r c hc]

theorem flatten_chunk {α : Type} (xs : List (List α)) (x : List α)
    (hx : x ∈ xs) : ∃ l r, xs.flatten = l ++ x ++ r := by
  induction xs with
  | nil => cases hx
  | cons y ys ih =>
    rcases List.mem_cons.mp hx with rfl | hx'
    · exact ⟨[], ys.flatten, by simp⟩
    · obtain ⟨l, r, hlr⟩ := ih hx'
      exact ⟨y ++ l, r, by simp [hlr, List.append_assoc]⟩

theorem s3LoadTable_partitioned (cfg : S3Config) (name : String)
    (records : List Rec) (pcols : List String) (b : Bool)
    (hfmt : cfg.format = "csv")
    (hpart : cfg.partitioning = some ⟨true, pcols, b⟩) :
    s3LoadTable cfg name records = Except.ok
      ((partitionUnits ⟨true, pcols, b⟩ (tableColumns records) records).map
        (fun u => mkFile cfg (objectKeyChars cfg.pfx name u.1 cfg.format)
          (csvEncode u.2.1 u.2.2))) := by
  simp only [s3LoadTable, hpart]
  exact exceptMap_ok _ _ _ (fun u _ => by simp [convertFormat, hfmt])

theorem objectKeyChars_chunk (pfx name : String)
    (combo : List (String × Value)) (ext : String) (p : String × Value)
    (hp : p ∈ combo) :
    ∃ l r, objectKeyChars pfx name combo ext = l ++ seg p ++ r := by
  obtain ⟨l0, r0, hflat⟩ :=
    flatten_chunk (combo.map seg) (seg p) (List.mem_map_of_mem _ hp)
  refine ⟨pfx.data ++ name.data ++ '/' :: l0,
    r0 ++ name.data ++ '.' :: ext.data, ?_⟩
  simp [objectKeyChars, partitionPathChars, hflat, List.append_assoc]

/-- C8: with partitioning enabled, the S3 target uploads exactly one
object per distinct partition-value combination, every object key carries
a column=value/ segment for each of its partition values, and with
dropColumns set no uploaded object content retains a partition column. -/
theorem c8_s3_partitioning (name : String) (records : List Rec)
    (pcols : List String) (b : Bool) (cfg : S3Config)
    (hfmt : cfg.format = "csv")
    (hpart : cfg.partitioning = some ⟨true, pcols, b⟩)
    (hkept : (tableColumns records).filter
      (fun c => decide (c ∉ pcols)) ≠ [])
    (hcolsep : ∀ c ∈ tableColumns records, ',' ∉ c.data ∧ '\n' ∉ c.data)
    (hcellsep : ∀ r ∈ records, ∀ c ∈ tableColumns records,
      ',' ∉ valueChars (getFieldD r c) ∧ '\n' ∉ valueChars (getFieldD r c)) :
    ∃ files,
      s3Load [(name, records)] cfg = Except.ok ⟨true, none, some files⟩ ∧
      files.length = ((records.map (comboOf pcols)).dedup).length ∧
      (∀ f ∈ files, ∃ combo ∈ (records.map (comboOf pcols)).dedup,
        (∀ p ∈ combo, ∃ l r, f.key = l ++ seg p ++ r) ∧
        csvCols f.content =
          ((if b then
              (tableColumns records).filter (fun c => decide (c ∉ pcols))
            else tableColumns records).map String.data)) ∧
      (b = true → ∀ f ∈ files, ∀ c ∈ pcols,
        c.data ∉ csvCols f.content) := by
  have hcols_ne : tableColumns records ≠ [] := by
    intro he
    rw [he] at hkept
    exact hkept rfl
  have hload := s3LoadTable_partitioned cfg name records pcols b hfmt hpart
  have hs3 : s3Load [(name, records)] cfg = Except.ok ⟨true, none,
      some ((partitionUnits ⟨true, pcols, b⟩ (tableColumns records)
        records).map
        (fun u => mkFile cfg (objectKeyChars cfg.pfx name u.1 cfg.format)
          (csvEncode u.2.1 u.2.2)))⟩ := by
    unfold s3Load
    rw [show exceptMap (fun p => s3LoadTable cfg p.1 p.2) [(name, records)] =
        Except.ok [(partitionUnits ⟨true, pcols, b⟩ (tableColumns records)
          records).map
          (fun u => mkFile cfg (objectKeyChars cfg.pfx name u.1 cfg.format)
            (csvEncode u.2.1 u.2.2))] from by simp [exceptMap, hload]]
    simp
  refine ⟨_, hs3, by simp [partitionUnits], ?_, ?_⟩
  · intro f hf
    obtain ⟨u, hu, rfl⟩ := List.mem_map.mp hf
    simp only [partitionUnits] at hu
    obtain ⟨combo, hcombo, rfl⟩ := List.mem_map.mp hu
    cases b with
    | false =>
      refine ⟨combo, hcombo, ?_, ?_⟩
      · intro p hp
        exact objectKeyChars_chunk cfg.pfx name combo cfg.format p hp
      · refine csvCols_csvEncode (tableColumns records)
          (records.filter (fun r => decide (comboOf pcols r = combo)))
          hcols_ne hcolsep ?_
        intro r' hr' cell hcl
        obtain ⟨c, hc, rfl⟩ := List.mem_map.mp hcl
        exact hcellsep r' (List.mem_of_mem_filter hr') c hc
    | true =>
      refine ⟨combo, hcombo, ?_, ?_⟩
      · intro p hp
        exact objectKeyChars_chunk cfg.pfx name combo cfg.format p hp
      · refine csvCols_csvEncode
          ((tableColumns records).filter (fun c => decide (c ∉ pcols)))
          ((records.filter
            (fun r => decide (comboOf pcols r = combo))).map
            (dropColsRec pcols))
          hkept ?_ ?_
        · intro c hc
          exact hcolsep c (List.mem_filter.mp hc).1
        · intro r' hr' cell hcl
          obtain ⟨r0, hr0, rfl⟩ := List.mem_map.mp hr'
          obtain ⟨c, hc, rfl⟩ := List.mem_map.mp hcl
          have hck := List.mem_filter.mp hc
          rw [getFieldD_dropColsRec pcols r0 c (of_decide_eq_true hck.2)]
          exact hcellsep r0 (List.mem_of_mem_filter hr0) c hck.1
  · intro hb f hf c hcp hmem
    subst hb
    obtain ⟨u, hu, rfl⟩ := List.mem_map.mp hf
    simp only [partitionUnits] at hu
    obtain ⟨combo, hcombo, rfl⟩ := List.mem_map.mp hu
    have hcsv : csvCols (csvEncode ((tableColumns records).filter
        (fun c => decide (c ∉ pcols)))
        ((records.filter
          (fun r => decide (comboOf pcols r = combo))).map
          (dropColsRec pcols))) =
        ((tableColumns records).filter
          (fun c => decide (c ∉ pcols))).map String.data := by
      refine csvCols_csvEncode _ _ hkept ?_ ?_
      · intro c' hc'
        exact hcolsep c' (List.mem_filter.mp hc').1
      · intro r' hr' cell hcl
        obtain ⟨r0, hr0, rfl⟩ := List.mem_map.mp hr'
        obtain ⟨c', hc', rfl⟩ := List.mem_map.mp hcl
        have hck := List.mem_filter.mp hc'
        rw [getFieldD_dropColsRec pcols r0 c' (of_decide_eq_true hck.2)]
        exact hcellsep r0 (List.mem_of_mem_filter hr0) c' hck.1
    have hmem2 : c.data ∈ csvCols (csvEncode ((tableColumns records).filter
        (fun c => decide (c ∉ pcols)))
        ((records.filter
          (fun r => decide (comboOf pcols r = combo))).map
          (dropColsRec pcols))) := hmem
    rw [hcsv] at hmem2
    obtain ⟨c', hc', he⟩ := List.mem_map.mp hmem2
    have hcc : c' = c := String.ext he
    subst hcc
    exact (of_decide_eq_true (List.mem_filter.mp hc').2) hcp

/-- Witness for C8: the orders table with two distinct status values
uploads two objects, keys carry status=value segments, and the status
column is absent from every uploaded content. -/
theorem c8_witness :
    ((demoPartRecords.map (comboOf ["status"])).dedup).length = 2 ∧
    ∃ files,
      s3Load [("orders", demoPartRecords)] demoS3Config =
        Except.ok ⟨true, none, some files⟩ ∧
      files.length =
        ((demoPartRecords.map (comboOf ["status"])).dedup).length ∧
      (∀ f ∈ files, ∃ combo ∈ (demoPartRecords.map
          (comboOf ["status"])).dedup,
        (∀ p ∈ combo, ∃ l r, f.key = l ++ seg p ++ r) ∧
        csvCols f.content =
          ((if true then
              (tableColumns demoPartRecords).filter
                (fun c => decide (c ∉ ["status"]))
            else tableColumns demoPartRecords).map String.data)) ∧
      (true = true → ∀ f ∈ files, ∀ c ∈ ["status"],
        c.data ∉ csvCols f.content) := by
  refine ⟨by decide, ?_⟩
  exact c8_s3_partitioning "orders" demoPartRecords ["status"] true
    demoS3Config rfl rfl (by decide) (by decide) (by decide)

end MCP
